import Mathlib

/- Verification of the log-rotation engine in libbeat/outputs/s3/file_manager.go.
   The generation namer, rotation policy, ring rotator, key namer and upload
   step are shallowly embedded below.  The local filesystem is a map from paths
   to file sizes (contents are abstracted to byte counts, which renames move
   unchanged); the external outcomes seen by the upload step (session creation,
   blob-store accept/reject) and the wall clock are environment parameters. -/

/-- Bound `managerMaxFiles` from the source: the prune loop scans slots up to
this bound (exclusive). -/
def managerMaxFiles : Nat := 1024

/-- Character for one decimal digit, as produced by Go's fmt/strconv for a
digit value 0..9 (all uses below are with `n % 10`). -/
def digitChar (d : Nat) : Char :=
  if d = 0 then '0' else if d = 1 then '1' else if d = 2 then '2'
  else if d = 3 then '3' else if d = 4 then '4' else if d = 5 then '5'
  else if d = 6 then '6' else if d = 7 then '7' else if d = 8 then '8' else '9'

/-- Fixed-width zero-padded decimal rendering (Go's 0-padded width-w integer
verb for in-range values): the low `w` decimal digits of `n`, most
significant first. -/
def padNum : Nat → Nat → List Char
  | 0, _ => []
  | w + 1, n => padNum w (n / 10) ++ [digitChar (n % 10)]

/-- Number of decimal digits, by structural descent on a fuel bound (so that
concrete paths and keys reduce definitionally). -/
def digitsLenAux : Nat → Nat → Nat
  | 0, _ => 1
  | fuel + 1, n => if n < 10 then 1 else digitsLenAux fuel (n / 10) + 1

/-- Number of decimal digits of `n` (1 for 0). -/
def digitsLen (n : Nat) : Nat := digitsLenAux n n

/-- Minimal-width decimal rendering, as produced by Go's `strconv.Itoa` and
the plain integer verb for non-negative values. -/
def decimal (n : Nat) : List Char := padNum (digitsLen n) n

def decimalStr (n : Nat) : String := String.mk (decimal n)

/-- Numeric value of a digit character. -/
def digitVal (c : Char) : Nat := c.toNat - 48

/-- Decimal evaluator, inverse of `padNum` on in-range inputs. -/
def readVal (l : List Char) : Nat := l.foldl (fun a c => 10 * a + digitVal c) 0

/-- Outcome of an `os.Stat`/`os.Lstat` call on a path. -/
inductive StatRes
  | ok
  | errNotExist
  | errOther
deriving DecidableEq

/-- Model of `os.IsNotExist` applied to the error of a stat call. -/
def isNotExist : StatRes → Bool
  | .errNotExist => true
  | _ => false

/-- The local filesystem: a map from paths to file sizes in bytes. -/
abbrev Disk := String → Option Nat

/-- Stat on the modelled disk: succeeds exactly on mapped paths. -/
def statOf (d : Disk) (p : String) : StatRes :=
  match d p with
  | some _ => .ok
  | none => .errNotExist

/-- Disk after setting (or clearing) one path. -/
def diskSet (d : Disk) (p : String) (v : Option Nat) : Disk :=
  fun q => if q = p then v else d q

/-- Trace entries recording the upload effects performed by `rotate`, in
program order (instrumentation of the embedding: the Go code performs the
corresponding effect at exactly that program point). -/
inductive UploadEvent
  | uploadAttempted (p : String)
  | uploadReturned
deriving DecidableEq

/-- External outcomes seen by `s3Upload`: whether `session.NewSession`
succeeds and whether the blob store accepts `uploader.Upload`. -/
structure UploadEnv where
  sessionOk : Bool
  storeOk : Bool

/-- Result of the body of `s3Upload` (file_manager.go:186-231).
`panicNilResult` is the nil-pointer dereference of `result.Location` at line
228, reached when `uploader.Upload` returns an error together with a nil
result; `errSession` is the early error return after a failed
`session.NewSession`; `okDone` is the normal nil return. -/
inductive UploadOutcome
  | panicNilResult
  | errSession
  | okDone
deriving DecidableEq

/-- The `fileManager` struct (file_manager.go:27-39).  Config pointer fields
are modelled by their values (the rotation code runs after
`checkIfConfigSane` filled the defaults); `current` keeps only whether a live
`*os.File` handle is open, since the live file's byte count is tracked by
`disk` at slot 0's path.  `disk` and `events` model the external filesystem
state and the trace of upload effects threaded through the methods. -/
structure fileManager where
  Path : String
  Name : String
  Region : String
  Bucket : String
  UploadEveryBytes : Nat
  UploadEverySeconds : Int
  KeepFiles : Nat
  current : Option Unit
  current_size : Nat
  last : String
  disk : Disk
  events : List UploadEvent

/-- Method `filePath` (file_manager.go:233-239): slot 0 is `Path/Name`, slot
n ≥ 1 is `Path/Name.n` (`filepath.Join` modelled as interposing one slash). -/
def filePath (m : fileManager) (file_no : Nat) : String :=
  if file_no = 0 then m.Path ++ ("/") ++ m.Name
  else m.Path ++ ("/") ++ (m.Name ++ (".") ++ decimalStr file_no)

/-- Method `fileExists` (file_manager.go:241-248): probe the slot's path with
`os.Stat`; report missing only when the error is a does-not-exist error — a
nil error or any other stat failure reports the file as existing. -/
def fileExists (stat : String → StatRes) (m : fileManager) (file_no : Nat) : Bool :=
  if isNotExist (stat (filePath m file_no)) then false else true

/-- Wall-clock inputs of the time-based rotation check: `time.Now()` and the
modification time of the slot-1 file, in nanoseconds. -/
structure TimeEnv where
  nowNs : Int
  mtime1Ns : Int

/-- Runtime panic of `shouldRotate`: `os.Lstat` failed (slot-1 file missing),
the error is only logged, and `fileInfo.ModTime()` is then invoked on the nil
`FileInfo` (file_manager.go:117-122). -/
inductive WritePanic
  | nilFileInfo
deriving DecidableEq

/-- Method `shouldRotate` (file_manager.go:103-137): rotate when no live file
is open, else when the tracked size reached `UploadEveryBytes`, else — if a
positive `UploadEverySeconds` is configured — compare the whole-second age of
the slot-1 file against the threshold.  When the slot-1 stat fails, the Go
code logs the error and still calls `fileInfo.ModTime()` on the nil result, a
nil-pointer dereference, modelled as `.error .nilFileInfo`. -/
def shouldRotate (tenv : TimeEnv) (m : fileManager) : Except WritePanic Bool :=
  if m.current.isNone then .ok true
  else if m.UploadEveryBytes ≤ m.current_size then .ok true
  else if 0 < m.UploadEverySeconds then
    match statOf m.disk (filePath m 1) with
    | .ok => .ok (m.UploadEverySeconds ≤ (tenv.nowNs - tenv.mtime1Ns).tdiv 1000000000)
    | _ => .error .nilFileInfo
  else .ok false

/-- Method `s3Upload` (file_manager.go:186-231) reduced to its outcome: a
failed `os.Open` of `manager.last` is only logged and the body proceeds (the
gzip pipe then streams nothing), a failed `session.NewSession` returns the
error, a store rejection reaches the nil `result.Location` dereference, and
otherwise nil is returned.  The local file is never renamed or deleted here,
and the function never modifies the generation ring. -/
def s3Upload (env : UploadEnv) (_m : fileManager) : UploadOutcome :=
  if env.sessionOk = false then .errSession
  else if env.storeOk = false then .panicNilResult
  else .okDone

/-- Failures of `rotate`: the shift-phase conflict error ("file exists when
rotating would overwrite it", file_manager.go:278) and the propagated runtime
panic of the synchronous `s3Upload` call when the store rejects the upload. -/
inductive RotateErr
  | conflict (p : String)
  | uploadPanic
deriving DecidableEq

/-- One iteration of the prune loop (file_manager.go:259-266): delete the
slot's file when it exists (`os.Remove` modelled as succeeding). -/
def pruneStep (m : fileManager) (d : Disk) (file_no : Nat) : Disk :=
  if fileExists (statOf d) m file_no then diskSet d (filePath m file_no) none else d

/-- Prune phase of `rotate`: scan every slot from `KeepFiles` up to
`managerMaxFiles` (exclusive) and delete whatever exists there. -/
def pruneLoop (m : fileManager) (d : Disk) : Disk :=
  (List.range' m.KeepFiles (managerMaxFiles - m.KeepFiles)).foldl (pruneStep m) d

/-- One iteration of the shift loop (file_manager.go:269-285) at slot `n`:
skip a missing slot, fail with the conflict error when the target slot
`n + 1` is already populated, otherwise rename `n` to `n + 1`. -/
def shiftStep (m : fileManager) (d : Disk) (n : Nat) : Except RotateErr Disk :=
  if fileExists (statOf d) m n = false then .ok d
  else if fileExists (statOf d) m (n + 1) then .error (.conflict (filePath m (n + 1)))
  else .ok (diskSet (diskSet d (filePath m (n + 1)) (d (filePath m n))) (filePath m n) none)

/-- Shift phase of `rotate`: process slots `k - 1, k - 2, …, 0` in that
(descending) order; `shiftLoop m k` is the loop run with `KeepFiles = k`. -/
def shiftLoop (m : fileManager) : Nat → Disk → Except RotateErr Disk
  | 0, d => .ok d
  | n + 1, d =>
    match shiftStep m d n with
    | .error e => .error e
    | .ok d2 => shiftLoop m n d2

/-- Method `rotate` (file_manager.go:250-306): close the live handle
(modelled as succeeding), prune all slots at or beyond `KeepFiles`, run the
descending rename cascade, create a fresh empty file at slot 0 and reset the
counter, best-effort remove the file at slot `KeepFiles` (errors ignored),
record slot 1's path as `last` and run `s3Upload` synchronously — its
returned error is discarded (line 303 ignores the result), but the
nil-dereference panic on a store rejection propagates. -/
def rotate (env : UploadEnv) (m : fileManager) : Except RotateErr fileManager :=
  let d1 := pruneLoop m m.disk
  match shiftLoop m m.KeepFiles d1 with
  | .error e => .error e
  | .ok d2 =>
    let d3 := diskSet d2 (filePath m 0) (some 0)
    let d4 := diskSet d3 (filePath m m.KeepFiles) none
    let lastP := filePath m 1
    match s3Upload env { m with last := lastP } with
    | .panicNilResult => .error .uploadPanic
    | _ =>
      .ok { m with
            current := some ()
            current_size := 0
            last := lastP
            disk := d4
            events := m.events ++ [.uploadAttempted lastP, .uploadReturned] }

/-- Errors surfaced by `writeLine`: the `shouldRotate` stat panic and a
failed `rotate`.  Write errors of the live handle are not modelled: the
claims below quantify over successful appends. -/
inductive WriteErr
  | statPanic
  | rotateFailed (e : RotateErr)

/-- The append step of `writeLine` (file_manager.go:93-98): the line plus a
newline is written to the live slot-0 file and the written byte count is
added to `current_size`. -/
def postWrite (m1 : fileManager) (len : Nat) : fileManager :=
  { m1 with
    current_size := m1.current_size + (len + 1),
    disk := diskSet m1.disk (filePath m1 0)
      ((m1.disk (filePath m1 0)).map (fun s => s + (len + 1))) }

/-- Method `writeLine` (file_manager.go:85-101): consult the rotation policy,
rotate when due, then append the line plus a newline to the live file and add
the written byte count to `current_size` (`postWrite`).  The returned flag
records whether this write triggered a rotation. -/
def writeLine (tenv : TimeEnv) (env : UploadEnv) (m : fileManager) (len : Nat) :
    Except WriteErr (fileManager × Bool) :=
  match shouldRotate tenv m with
  | .error _ => .error .statPanic
  | .ok b =>
    match (if b then rotate env m else .ok m) with
    | .error e => .error (.rotateFailed e)
    | .ok m1 => .ok (postWrite m1 len, b)

/-- Run a sequence of `writeLine` calls (line lengths without the newline),
collecting for each write whether it triggered a rotation. -/
def runWrites (tenv : TimeEnv) (env : UploadEnv) :
    fileManager → List Nat → Except WriteErr (fileManager × List Bool)
  | m, [] => .ok (m, [])
  | m, len :: rest =>
    match writeLine tenv env m len with
    | .error e => .error e
    | .ok (m1, b) =>
      match runWrites tenv env m1 rest with
      | .error e => .error e
      | .ok (m2, bs) => .ok (m2, b :: bs)

/-- Rotation flags of a run, `none` when the run fails. -/
def runFlags (tenv : TimeEnv) (env : UploadEnv) (m : fileManager) (lens : List Nat) :
    Option (List Bool) :=
  match runWrites tenv env m lens with
  | .ok (_, bs) => some bs
  | .error _ => none

/-- Proposition transformer for rotation results: `P` holds of the state a
successful `rotate` returns, and `rotate` does not fail. -/
def rotateOk (env : UploadEnv) (m : fileManager) (P : fileManager → Prop) : Prop :=
  match rotate env m with
  | .ok m2 => P m2
  | .error _ => False

/-- Proposition transformer for write runs: `P` holds of the final state and
the per-write rotation flags of a successful `runWrites`; failures satisfy it
vacuously. -/
def onRunOk (tenv : TimeEnv) (env : UploadEnv) (m : fileManager) (lens : List Nat)
    (P : fileManager → List Bool → Prop) : Prop :=
  match runWrites tenv env m lens with
  | .ok (m2, bs) => P m2 bs
  | .error _ => True

/-- Written size of a sequence of lines: each line gains one newline byte. -/
def sumZ (lens : List Nat) : Nat := (lens.map (fun l => l + 1)).sum

/-- Components of the UTC timestamp used by `s3KeyName`
(`t.Year()` … `t.Nanosecond()`). -/
structure TimeParts where
  year : Nat
  month : Nat
  day : Nat
  hour : Nat
  minute : Nat
  second : Nat
  nanosecond : Nat
deriving DecidableEq

/-- Ranges of the fields produced by Go's `time` package, under which the
fixed-width zero-padded renderings are faithful. -/
def TimeParts.Valid (t : TimeParts) : Prop :=
  1 ≤ t.month ∧ t.month ≤ 12 ∧ 1 ≤ t.day ∧ t.day ≤ 31 ∧ t.hour < 24 ∧
    t.minute < 60 ∧ t.second < 60 ∧ t.nanosecond < 1000000000

instance (t : TimeParts) : Decidable t.Valid := by
  unfold TimeParts.Valid
  infer_instance

/-- The `timeIso8601` string of `s3KeyName` (file_manager.go:173-176):
year, month, day, a literal T, hour, minute, second, a dot, the 9-digit
nanosecond field and a literal Z. -/
def timeIso8601 (t : TimeParts) : List Char :=
  decimal t.year ++ padNum 2 t.month ++ padNum 2 t.day ++ 'T' ::
    (padNum 2 t.hour ++ padNum 2 t.minute ++ padNum 2 t.second ++ '.' ::
      (padNum 9 t.nanosecond ++ ['Z']))

/-- Method `s3KeyName` (file_manager.go:155-184) for an already-resolved
host: slash, year, slash, month, slash, day, slash, host, underscore, ISO
timestamp.  Keys are modelled as character lists; Go's bytewise string
comparison agrees with the character-wise lexicographic order on these ASCII
keys. -/
def s3KeyName (host : List Char) (t : TimeParts) : List Char :=
  '/' :: (decimal t.year ++ '/' ::
    (padNum 2 t.month ++ '/' :: (padNum 2 t.day ++ '/' ::
      (host ++ '_' :: timeIso8601 t))))

/-- Same-UTC-day relation between two timestamps. -/
def sameDay (t1 t2 : TimeParts) : Prop :=
  t1.year = t2.year ∧ t1.month = t2.month ∧ t1.day = t2.day

instance (t1 t2 : TimeParts) : Decidable (sameDay t1 t2) := by
  unfold sameDay
  infer_instance

/-- Chronological order of two same-day timestamps: lexicographic on
(hour, minute, second, nanosecond). -/
def timeLt (t1 t2 : TimeParts) : Prop :=
  t1.hour < t2.hour ∨ (t1.hour = t2.hour ∧ (t1.minute < t2.minute ∨
    (t1.minute = t2.minute ∧ (t1.second < t2.second ∨
      (t1.second = t2.second ∧ t1.nanosecond < t2.nanosecond)))))

instance (t1 t2 : TimeParts) : Decidable (timeLt t1 t2) := by
  unfold timeLt
  infer_instance

/-- Completely empty filesystem. -/
def emptyDisk : Disk := fun _ => none

/-- Manager template for the concrete instances below. -/
def mkManager (keep bytes : Nat) (secs : Int) (cur : Option Unit) (cs : Nat) (d : Disk) :
    fileManager :=
  { Path := "d"
    Name := "f"
    Region := "r"
    Bucket := "b"
    UploadEveryBytes := bytes
    UploadEverySeconds := secs
    KeepFiles := keep
    current := cur
    current_size := cs
    last := ""
    disk := d
    events := [] }

/-- Path of slot `n` under the template configuration. -/
def slotPath (n : Nat) : String := filePath (mkManager 3 100 0 none 0 emptyDisk) n

def envAllOk : UploadEnv := { sessionOk := true, storeOk := true }

def envStoreReject : UploadEnv := { sessionOk := true, storeOk := false }

def tenvZero : TimeEnv := { nowNs := 0, mtime1Ns := 0 }

/-- Disk with generation files at slots 0..4 (sizes 11..15). -/
def diskSlots04 : Disk :=
  fun p =>
    if p = slotPath 0 then some 11
    else if p = slotPath 1 then some 12
    else if p = slotPath 2 then some 13
    else if p = slotPath 3 then some 14
    else if p = slotPath 4 then some 15
    else none

/-- Manager with `KeepFiles = 3` over `diskSlots04` (the C1 scenario). -/
def mgrSlots04 : fileManager := mkManager 3 100 0 (some ()) 11 diskSlots04

/-- Disk with generation files at slots 0 and 1 only (sizes 7 and 8). -/
def diskSlots01 : Disk :=
  fun p => if p = slotPath 0 then some 7 else if p = slotPath 1 then some 8 else none

/-- Manager with `KeepFiles = 3` over `diskSlots01` (the C4 scenario: slot 0
has an occupied successor slot 1). -/
def mgrSlots01 : fileManager := mkManager 3 100 0 (some ()) 7 diskSlots01

/-- Manager with a positive time threshold, an open live file below the size
threshold, and no file at slot 1 (the C2 scenario). -/
def mgrNoSlot1 : fileManager :=
  mkManager 3 100 60 (some ()) 0 (fun p => if p = slotPath 0 then some 0 else none)

/-- Manager with an open, empty live file and exclusively size-based policy
(the C3/C5/C6 scenarios). -/
def mgrFresh : fileManager :=
  mkManager 3 100 0 (some ()) 0 (fun p => if p = slotPath 0 then some 0 else none)

/-- Manager over an empty directory, as before the first-ever rotation
(the C8/C10 scenarios). -/
def mgrEmptyDir : fileManager := mkManager 3 100 0 none 0 emptyDisk

/-- First key-namer invocation instant of the C7 witness. -/
def tpEarly : TimeParts :=
  { year := 2026, month := 10, day := 11, hour := 9, minute := 30, second := 15,
    nanosecond := 123456789 }

/-- Second key-namer invocation instant of the C7 witness: one nanosecond
later, same UTC day. -/
def tpLate : TimeParts :=
  { year := 2026, month := 10, day := 11, hour := 9, minute := 30, second := 15,
    nanosecond := 123456790 }

/-- Digit characters are strictly ordered like their digit values. -/
theorem digitChar_mono {a b : Nat} (ha : a < 10) (hb : b < 10) (hab : a < b) :
    digitChar a < digitChar b := by
  interval_cases a <;> interval_cases b <;> revert hab <;> decide

/-- Reading back a digit character recovers the digit. -/
theorem digitVal_digitChar {d : Nat} (hd : d < 10) : digitVal (digitChar d) = d := by
  interval_cases d <;> decide

/-- Digit characters are never the path separator. -/
theorem digitChar_ne_slash (d : Nat) (hd : d < 10) : digitChar d ≠ '/' := by
  interval_cases d <;> decide

theorem padNum_length (w n : Nat) : (padNum w n).length = w := by
  induction w generalizing n with
  | zero => rfl
  | succ w ih => simp [padNum, ih]

theorem readVal_padNum {w n : Nat} (h : n < 10 ^ w) : readVal (padNum w n) = n := by
  induction w generalizing n with
  | zero =>
    have hn : n = 0 := by simpa using h
    subst hn; rfl
  | succ w ih =>
    have hd : n / 10 < 10 ^ w := by
      rw [Nat.div_lt_iff_lt_mul (by norm_num)]
      calc n < 10 ^ (w + 1) := h
        _ = 10 ^ w * 10 := by ring
    have hstep : readVal (padNum (w + 1) n) =
        10 * readVal (padNum w (n / 10)) + digitVal (digitChar (n % 10)) := by
      simp [padNum, readVal, List.foldl_append]
    rw [hstep, ih hd, digitVal_digitChar (Nat.mod_lt _ (by norm_num))]
    omega

theorem padNum_inj {w a b : Nat} (ha : a < 10 ^ w) (hb : b < 10 ^ w)
    (h : padNum w a = padNum w b) : a = b := by
  have h2 := congrArg readVal h
  rwa [readVal_padNum ha, readVal_padNum hb] at h2

theorem padNum_mem_ne_slash {w n : Nat} {c : Char} (hc : c ∈ padNum w n) : c ≠ '/' := by
  induction w generalizing n with
  | zero => simp [padNum] at hc
  | succ w ih =>
    simp only [padNum, List.mem_append, List.mem_singleton] at hc
    rcases hc with h | h
    · exact ih h
    · subst h; exact digitChar_ne_slash _ (Nat.mod_lt _ (by norm_num))

theorem lt_pow_digitsLenAux : ∀ fuel n, n ≤ fuel → n < 10 ^ digitsLenAux fuel n := by
  intro fuel
  induction fuel with
  | zero =>
    intro n hn
    have : n = 0 := by omega
    subst this
    simp [digitsLenAux]
  | succ fuel ih =>
    intro n hn
    by_cases h10 : n < 10
    · simp [digitsLenAux, h10]
    · have hd : n / 10 ≤ fuel := by
        have := Nat.div_lt_self (by omega : 0 < n) (by norm_num : 1 < 10)
        omega
      have hlt := ih (n / 10) hd
      have hmod := Nat.mod_lt n (by norm_num : 0 < 10)
      have hdm := Nat.div_add_mod n 10
      simp only [digitsLenAux, h10, if_false, pow_succ]
      omega

theorem lt_pow_digitsLen (n : Nat) : n < 10 ^ digitsLen n :=
  lt_pow_digitsLenAux n n (Nat.le_refl n)

theorem decimal_inj {a b : Nat} (h : decimal a = decimal b) : a = b := by
  have h2 := congrArg readVal h
  rw [decimal, decimal, readVal_padNum (lt_pow_digitsLen a),
    readVal_padNum (lt_pow_digitsLen b)] at h2
  exact h2

theorem digitsLenAux_pos (fuel n : Nat) : 0 < digitsLenAux fuel n := by
  cases fuel with
  | zero => simp [digitsLenAux]
  | succ fuel =>
    simp only [digitsLenAux]
    split <;> omega

theorem decimal_length_pos (n : Nat) : 0 < (decimal n).length := by
  rw [decimal, padNum_length]
  exact digitsLenAux_pos n n

theorem decimal_mem_ne_slash {n : Nat} {c : Char} (hc : c ∈ decimal n) : c ≠ '/' :=
  padNum_mem_ne_slash hc

/-- Lexicographic comparison is preserved under a common prefix. -/
theorem lex_append_left {r : Char → Char → Prop} (pre : List Char) {a b : List Char}
    (h : List.Lex r a b) : List.Lex r (pre ++ a) (pre ++ b) := by
  induction pre with
  | nil => exact h
  | cons x xs ih => exact List.Lex.cons ih

/-- Lexicographic comparison of equal-length blocks extends to any suffixes. -/
theorem lex_append_of_length_eq {r : Char → Char → Prop} {a b : List Char}
    (hlen : a.length = b.length) (h : List.Lex r a b) (c d : List Char) :
    List.Lex r (a ++ c) (b ++ d) := by
  induction h with
  | nil => simp at hlen
  | cons h ih => exact List.Lex.cons (ih (by simpa using hlen))
  | rel h => exact List.Lex.rel h

/-- Fixed-width renderings of in-range values compare like the values. -/
theorem padNum_lex {w a b : Nat} (hab : a < b) (hb : b < 10 ^ w) :
    List.Lex (fun c d : Char => c < d) (padNum w a) (padNum w b) := by
  induction w generalizing a b with
  | zero =>
    exfalso
    simp only [pow_zero, Nat.lt_one_iff] at hb
    omega
  | succ w ih =>
    have hb' : b / 10 < 10 ^ w := by
      rw [Nat.div_lt_iff_lt_mul (by norm_num)]
      calc b < 10 ^ (w + 1) := hb
        _ = 10 ^ w * 10 := by ring
    rcases Nat.lt_or_ge (a / 10) (b / 10) with hq | hq
    · exact lex_append_of_length_eq (by rw [padNum_length, padNum_length])
        (ih hq hb') _ _
    · have hqe : a / 10 = b / 10 :=
        Nat.le_antisymm (Nat.div_le_div_right (Nat.le_of_lt hab)) hq
      have hm : a % 10 < b % 10 := by
        have ha2 := Nat.div_add_mod a 10
        have hb2 := Nat.div_add_mod b 10
        omega
      show List.Lex _ (padNum w (a / 10) ++ [digitChar (a % 10)])
        (padNum w (b / 10) ++ [digitChar (b % 10)])
      rw [hqe]
      exact lex_append_left _ (List.Lex.rel
        (digitChar_mono (Nat.mod_lt _ (by norm_num)) (Nat.mod_lt _ (by norm_num)) hm))

theorem filePath_data_zero (m : fileManager) :
    (filePath m 0).data = m.Path.data ++ '/' :: m.Name.data := by
  simp [filePath, String.data_append]

theorem filePath_data_succ (m : fileManager) {n : Nat} (hn : n ≠ 0) :
    (filePath m n).data = m.Path.data ++ '/' :: (m.Name.data ++ '.' :: decimal n) := by
  simp [filePath, hn, String.data_append, decimalStr]

/-- The slot-to-path map of `filePath` is injective for a fixed manager. -/
theorem filePath_inj {m : fileManager} {a b : Nat} (h : filePath m a = filePath m b) :
    a = b := by
  have hd := congrArg String.data h
  by_cases ha : a = 0 <;> by_cases hb : b = 0
  · omega
  · exfalso
    rw [ha, filePath_data_zero, filePath_data_succ m hb] at hd
    have hl := congrArg List.length hd
    simp [List.length_append] at hl
  · exfalso
    rw [hb, filePath_data_zero, filePath_data_succ m ha] at hd
    have hl := congrArg List.length hd
    simp [List.length_append] at hl
  · rw [filePath_data_succ m ha, filePath_data_succ m hb] at hd
    have h1 := List.append_cancel_left hd
    have h2 := List.append_cancel_left (List.cons_injective.eq_iff.mp h1)
    exact decimal_inj (List.cons_injective.eq_iff.mp h2)

theorem diskSet_same (d : Disk) (p : String) (v : Option Nat) : diskSet d p v p = v := by
  simp [diskSet]

theorem diskSet_other (d : Disk) {p q : String} (v : Option Nat) (h : q ≠ p) :
    diskSet d p v q = d q := by
  simp [diskSet, h]

/-- On the modelled disk, the existence probe agrees with path occupancy. -/
theorem fileExists_eq_isSome (d : Disk) (m : fileManager) (n : Nat) :
    fileExists (statOf d) m n = (d (filePath m n)).isSome := by
  unfold fileExists statOf isNotExist
  cases d (filePath m n) <;> simp

theorem pruneStep_apply (m : fileManager) (d : Disk) (n : Nat) (p : String) :
    pruneStep m d n p = if p = filePath m n then none else d p := by
  unfold pruneStep
  rw [fileExists_eq_isSome]
  by_cases hp : p = filePath m n <;>
    cases hval : d (filePath m n) <;>
      simp [hval, diskSet, hp]

theorem pruneFold_apply (m : fileManager) (l : List Nat) (d : Disk) (p : String) :
    l.foldl (pruneStep m) d p = if ∃ n ∈ l, p = filePath m n then none else d p := by
  induction l generalizing d with
  | nil => simp
  | cons a l ih =>
    rw [List.foldl_cons, ih]
    by_cases h1 : ∃ n ∈ l, p = filePath m n
    · rcases h1 with ⟨n, hn, hp⟩
      rw [if_pos ⟨n, hn, hp⟩, if_pos ⟨n, List.mem_cons_of_mem a hn, hp⟩]
    · rw [if_neg h1, pruneStep_apply]
      by_cases h2 : p = filePath m a
      · rw [if_pos h2, if_pos ⟨a, List.mem_cons_self a l, h2⟩]
      · rw [if_neg h2, if_neg]
        rintro ⟨n, hn, hp⟩
        rcases List.mem_cons.mp hn with rfl | hn2
        · exact h2 hp
        · exact h1 ⟨n, hn2, hp⟩

/-- The prune phase clears every slot path in `[KeepFiles, managerMaxFiles)`. -/
theorem pruneLoop_cleared (m : fileManager) (d : Disk) {n : Nat}
    (h1 : m.KeepFiles ≤ n) (h2 : n < managerMaxFiles) :
    pruneLoop m d (filePath m n) = none := by
  rw [pruneLoop, pruneFold_apply,
    if_pos ⟨n, List.mem_range'_1.mpr ⟨h1, by omega⟩, rfl⟩]

/-- The prune phase touches nothing outside those slot paths. -/
theorem pruneLoop_untouched (m : fileManager) (d : Disk) {p : String}
    (h : ∀ n, m.KeepFiles ≤ n → n < managerMaxFiles → p ≠ filePath m n) :
    pruneLoop m d p = d p := by
  rw [pruneLoop, pruneFold_apply, if_neg]
  rintro ⟨n, hn, hp⟩
  have hr := List.mem_range'_1.mp hn
  exact h n hr.1 (by omega) hp

/- The prune fold ranges over 1021 slots; keep it opaque to definitional
unfolding so that unification never tries to evaluate a concrete `rotate`
(its pointwise behaviour is fully captured by the two lemmas above). -/
attribute [irreducible] pruneLoop

theorem shiftLoop_succ_ok (m : fileManager) {k : Nat} {d dr : Disk}
    (h : shiftStep m d k = .ok dr) : shiftLoop m (k + 1) d = shiftLoop m k dr := by
  show (match shiftStep m d k with
    | .error e => .error e
    | .ok d2 => shiftLoop m k d2) = shiftLoop m k dr
  rw [h]

/-- Characterization of the descending shift loop when its starting slot `k`
is vacant (which the prune phase guarantees): it never raises the conflict
error; slot `j` (1 ≤ j ≤ k) receives the previous content of slot `j - 1`,
slot 0 is vacated, and every other path is untouched. -/
theorem shiftLoop_char (m : fileManager) :
    ∀ k d, d (filePath m k) = none →
      ∃ d2, shiftLoop m k d = .ok d2 ∧
        d2 (filePath m 0) = none ∧
        (∀ j, 1 ≤ j → j ≤ k → d2 (filePath m j) = d (filePath m (j - 1))) ∧
        (∀ p, (∀ j, j ≤ k → p ≠ filePath m j) → d2 p = d p) := by
  intro k
  induction k with
  | zero =>
    intro d h0
    exact ⟨d, rfl, h0, fun j h1 h2 => absurd (Nat.le_trans h1 h2) (by omega),
      fun p hp => rfl⟩
  | succ k ih =>
    intro d hk1
    cases hval : d (filePath m k) with
    | none =>
      have hstep : shiftStep m d k = .ok d := by
        unfold shiftStep
        rw [fileExists_eq_isSome, hval]
        simp
      rcases ih d hval with ⟨d2, hrun, h0, hshift, hun⟩
      refine ⟨d2, ?_, h0, ?_, ?_⟩
      · rw [shiftLoop_succ_ok m hstep, hrun]
      · intro j h1 h2
        rcases Nat.lt_or_ge j (k + 1) with hj | hj
        · exact hshift j h1 (by omega)
        · have hje : j = k + 1 := by omega
          subst hje
          have hne : ∀ j2, j2 ≤ k → filePath m (k + 1) ≠ filePath m j2 := by
            intro j2 hj2 heq
            have := filePath_inj heq
            omega
          rw [hun _ hne, hk1]
          have hsub : k + 1 - 1 = k := by omega
          rw [hsub, hval]
      · intro p hp
        exact hun p (fun j hj => hp j (by omega))
    | some v =>
      have hex : fileExists (statOf d) m k = true := by
        rw [fileExists_eq_isSome, hval]
        rfl
      have hnex : fileExists (statOf d) m (k + 1) = false := by
        rw [fileExists_eq_isSome, hk1]
        rfl
      have hstep : shiftStep m d k = .ok
          (diskSet (diskSet d (filePath m (k + 1)) (d (filePath m k)))
            (filePath m k) none) := by
        unfold shiftStep
        rw [hex, hnex]
        simp
      have hpre : (diskSet (diskSet d (filePath m (k + 1)) (d (filePath m k)))
          (filePath m k) none) (filePath m k) = none := diskSet_same _ _ _
      rcases ih _ hpre with ⟨d2, hrun, h0, hshift, hun⟩
      have hne10 : filePath m (k + 1) ≠ filePath m k := by
        intro h
        have := filePath_inj h
        omega
      refine ⟨d2, ?_, h0, ?_, ?_⟩
      · rw [shiftLoop_succ_ok m hstep, hrun]
      · intro j h1 h2
        rcases Nat.lt_or_ge j (k + 1) with hj | hj
        · rw [hshift j h1 (by omega),
            diskSet_other _ _ (fun h => by have := filePath_inj h; omega),
            diskSet_other _ _ (fun h => by have := filePath_inj h; omega)]
        · have hje : j = k + 1 := by omega
          subst hje
          have hne : ∀ j2, j2 ≤ k → filePath m (k + 1) ≠ filePath m j2 := by
            intro j2 hj2 heq
            have := filePath_inj heq
            omega
          rw [hun _ hne, diskSet_other _ _ hne10, diskSet_same]
          have hsub : k + 1 - 1 = k := by omega
          rw [hsub]
      · intro p hp
        rw [hun p (fun j hj => hp j (by omega)),
          diskSet_other _ _ (hp k (by omega)),
          diskSet_other _ _ (hp (k + 1) (by omega))]

/-- Master characterization of `rotate` in a sequential execution: under a
validated retention count and an upload environment that does not reach the
store-failure panic, `rotate` always succeeds — in particular the shift-phase
conflict error is unreachable, because the descending shift vacates every
target slot before renaming into it — and the resulting manager state is
described pointwise. -/
theorem rotate_char (env : UploadEnv) (m : fileManager)
    (hk1 : 1 ≤ m.KeepFiles) (hk2 : m.KeepFiles < managerMaxFiles)
    (hup : env.sessionOk = true → env.storeOk = true) :
    ∃ m2, rotate env m = .ok m2 ∧
      m2.current = some () ∧
      m2.current_size = 0 ∧
      m2.last = filePath m 1 ∧
      m2.events = m.events ++ [.uploadAttempted (filePath m 1), .uploadReturned] ∧
      m2.Path = m.Path ∧ m2.Name = m.Name ∧
      m2.UploadEveryBytes = m.UploadEveryBytes ∧
      m2.UploadEverySeconds = m.UploadEverySeconds ∧
      m2.KeepFiles = m.KeepFiles ∧
      m2.disk (filePath m 0) = some 0 ∧
      (∀ j, 1 ≤ j → j < m.KeepFiles →
        m2.disk (filePath m j) = m.disk (filePath m (j - 1))) ∧
      (∀ n, m.KeepFiles ≤ n → n < managerMaxFiles → m2.disk (filePath m n) = none) ∧
      (∀ p, (∀ n, n < managerMaxFiles → p ≠ filePath m n) → m2.disk p = m.disk p) := by
  have hpre : pruneLoop m m.disk (filePath m m.KeepFiles) = none :=
    pruneLoop_cleared m m.disk (Nat.le_refl _) hk2
  rcases shiftLoop_char m m.KeepFiles (pruneLoop m m.disk) hpre with
    ⟨d2, hrun, h0, hshift, hun⟩
  have hupo : ∀ mm : fileManager, s3Upload env mm ≠ .panicNilResult := by
    intro mm
    unfold s3Upload
    cases hs : env.sessionOk with
    | false => simp
    | true =>
      have hst := hup hs
      simp [hst]
  refine ⟨{ m with
      current := some ()
      current_size := 0
      last := filePath m 1
      disk := diskSet (diskSet d2 (filePath m 0) (some 0)) (filePath m m.KeepFiles) none
      events := m.events ++ [.uploadAttempted (filePath m 1), .uploadReturned] },
    ?_, rfl, rfl, rfl, rfl, rfl, rfl, rfl, rfl, rfl, ?_, ?_, ?_, ?_⟩
  · simp only [rotate, hrun]
    cases ho : s3Upload env { m with last := filePath m 1 } with
    | panicNilResult => exact absurd ho (hupo _)
    | errSession => rfl
    | okDone => rfl
  · show (diskSet (diskSet d2 (filePath m 0) (some 0)) (filePath m m.KeepFiles) none)
      (filePath m 0) = some 0
    rw [diskSet_other _ _ (fun h => by have := filePath_inj h; omega), diskSet_same]
  · intro j h1 h2
    show (diskSet (diskSet d2 (filePath m 0) (some 0)) (filePath m m.KeepFiles) none)
      (filePath m j) = m.disk (filePath m (j - 1))
    rw [diskSet_other _ _ (fun h => by have := filePath_inj h; omega),
      diskSet_other _ _ (fun h => by have := filePath_inj h; omega),
      hshift j h1 (by omega)]
    exact pruneLoop_untouched m m.disk (fun n hn1 hn2 heq => by
      have := filePath_inj heq
      omega)
  · intro n hn1 hn2
    show (diskSet (diskSet d2 (filePath m 0) (some 0)) (filePath m m.KeepFiles) none)
      (filePath m n) = none
    by_cases hne : n = m.KeepFiles
    · subst hne
      exact diskSet_same _ _ _
    · rw [diskSet_other _ _ (fun h => by have := filePath_inj h; omega),
        diskSet_other _ _ (fun h => by have := filePath_inj h; omega),
        hun _ (fun j hj heq => by have := filePath_inj heq; omega)]
      exact pruneLoop_cleared m m.disk hn1 hn2
  · intro p hp
    show (diskSet (diskSet d2 (filePath m 0) (some 0)) (filePath m m.KeepFiles) none) p
      = m.disk p
    rw [diskSet_other _ _ (hp m.KeepFiles hk2), diskSet_other _ _ (hp 0 (by omega)),
      hun p (fun j hj => hp j (by omega))]
    exact pruneLoop_untouched m m.disk (fun n h1 h2 => hp n h2)

theorem filePath_congr {m1 m2 : fileManager} (hP : m1.Path = m2.Path)
    (hN : m1.Name = m2.Name) (n : Nat) : filePath m1 n = filePath m2 n := by
  unfold filePath
  rw [hP, hN]

/-- Shape of any successful `rotate`: the fields set on the success path,
with the final disk given by the shifted disk plus the slot-0 create and the
best-effort removal of the slot-`KeepFiles` file. -/
theorem rotate_ok_shape {env : UploadEnv} {m m2 : fileManager}
    (h : rotate env m = .ok m2) :
    m2.current = some () ∧ m2.current_size = 0 ∧ m2.last = filePath m 1 ∧
      m2.events = m.events ++ [.uploadAttempted (filePath m 1), .uploadReturned] ∧
      m2.Path = m.Path ∧ m2.Name = m.Name ∧ m2.KeepFiles = m.KeepFiles ∧
      m2.UploadEveryBytes = m.UploadEveryBytes ∧
      m2.UploadEverySeconds = m.UploadEverySeconds ∧
      ∃ d2, m2.disk = diskSet (diskSet d2 (filePath m 0) (some 0))
        (filePath m m.KeepFiles) none := by
  simp only [rotate] at h
  cases hs : shiftLoop m m.KeepFiles (pruneLoop m m.disk) with
  | error e =>
    rw [hs] at h
    simp at h
  | ok d2 =>
    rw [hs] at h
    cases ho : s3Upload env { m with last := filePath m 1 } with
    | panicNilResult =>
      rw [ho] at h
      simp at h
    | errSession =>
      rw [ho] at h
      injection h with h2
      subst h2
      exact ⟨rfl, rfl, rfl, rfl, rfl, rfl, rfl, rfl, rfl, d2, rfl⟩
    | okDone =>
      rw [ho] at h
      injection h with h2
      subst h2
      exact ⟨rfl, rfl, rfl, rfl, rfl, rfl, rfl, rfl, rfl, d2, rfl⟩

/-- C9: `fileExists` reports a slot as missing exactly when the stat of the
slot's path failed with a does-not-exist error; a nil error or any other
stat failure (for example a permission error, `StatRes.errOther`) makes it
report the file as existing.  The prune and shift phases of `rotate` consume
exactly this probe (`pruneStep`, `shiftStep`). -/
theorem fileExists_false_iff_notExist (stat : String → StatRes) (m : fileManager)
    (n : Nat) : fileExists stat m n = false ↔ stat (filePath m n) = .errNotExist := by
  unfold fileExists isNotExist
  cases stat (filePath m n) <;> simp

/-- C10: after every successful `rotate`, the live byte counter is zero and
`last` is the slot-1 path — unconditionally, hence also when no file exists
at slot 1 on disk (as on the first-ever rotation, where the synchronous
upload step was then invoked on that non-existent path). -/
theorem rotate_resets_counter_and_last (env : UploadEnv) (m : fileManager) :
    match rotate env m with
    | .ok m2 => m2.current_size = 0 ∧ m2.last = filePath m 1 ∧ m2.current = some ()
    | .error _ => True := by
  cases h : rotate env m with
  | error e => trivial
  | ok m2 =>
    rcases rotate_ok_shape h with ⟨h1, h2, h3, _⟩
    exact ⟨h2, h3, h1⟩

/-- C8 (amended): the upload of the retired slot-1 file runs synchronously
inside `rotate` — every successful `rotate` has already recorded both the
upload attempt and its return in the event trace by the time it returns.
In the source, `manager.s3Upload()` at line 303 is a plain synchronous call;
only the gzip pipe writer inside `s3Upload` runs in a goroutine, and
`uploader.Upload` blocks until the store accepts or rejects the object. -/
theorem rotate_upload_synchronous (env : UploadEnv) (m : fileManager) :
    match rotate env m with
    | .ok m2 =>
      m2.events = m.events ++ [.uploadAttempted (filePath m 1), .uploadReturned]
    | .error _ => True := by
  cases h : rotate env m with
  | error e => trivial
  | ok m2 => exact (rotate_ok_shape h).2.2.2.1

/-- C8 (counterexample to the claim as stated): on a concrete rotation over
an empty directory, the state returned by `rotate` already contains the
completed upload attempt in its trace, so the writer's `rotate` call waited
for the upload step instead of dispatching it as an independent concurrent
unit of work. -/
theorem rotate_waits_for_upload_counterexample :
    match rotate envAllOk mgrEmptyDir with
    | .ok m2 => UploadEvent.uploadReturned ∈ m2.events
    | .error _ => False := by
  cases hres : rotate envAllOk mgrEmptyDir with
  | error e =>
    obtain ⟨m2, hrot, -⟩ :=
      rotate_char envAllOk mgrEmptyDir (by decide) (by decide) (fun _ => rfl)
    rw [hres] at hrot
    exact absurd hrot (by simp)
  | ok m2x =>
    have hev := (rotate_ok_shape hres).2.2.2.1
    show UploadEvent.uploadReturned ∈ m2x.events
    rw [hev]
    simp

/-- C2: with a positive time threshold, an open live file below the size
threshold and no file at slot 1, `shouldRotate` does not skip the time-based
check: the failed `os.Lstat` is only logged and `ModTime` is then invoked on
the nil `FileInfo`, so the probe panics instead of returning false. -/
theorem shouldRotate_missing_slot1_panics :
    shouldRotate tenvZero mgrNoSlot1 = .error .nilFileInfo := rfl

/-- When the session is created but the store rejects the upload, the
synchronous upload step inside `rotate` reaches the nil `result.Location`
dereference and the panic propagates out of `rotate`. -/
theorem rotate_store_rejection (env : UploadEnv) (m : fileManager)
    (hk2 : m.KeepFiles < managerMaxFiles)
    (hs : env.sessionOk = true) (hst : env.storeOk = false) :
    rotate env m = .error .uploadPanic := by
  have hpre := pruneLoop_cleared m m.disk (Nat.le_refl _) hk2
  rcases shiftLoop_char m m.KeepFiles (pruneLoop m m.disk) hpre with ⟨d2, hrun, _⟩
  have ho : s3Upload env { m with last := filePath m 1 } = .panicNilResult := by
    simp [s3Upload, hs, hst]
  simp only [rotate, hrun, ho]

/-- C3: with the ring of `mgrFresh` on disk and a blob store that rejects
the upload, the rotation's upload step does not terminate normally: the
nil-result dereference after the logged upload failure panics, the panic
propagates out of `rotate`, and through `writeLine` it reaches the writer's
append that triggered the rotation. -/
theorem writeLine_of_rotate_error {tenv : TimeEnv} {env : UploadEnv}
    {m : fileManager} {len : Nat} {e : RotateErr}
    (hsr : shouldRotate tenv m = .ok true) (hr : rotate env m = .error e) :
    writeLine tenv env m len = .error (.rotateFailed e) := by
  simp only [writeLine, hsr, if_true, hr]

theorem rotate_store_rejection_panics :
    rotate envStoreReject mgrFresh = .error .uploadPanic ∧
      writeLine tenvZero envStoreReject { mgrFresh with current_size := 150 } 5 =
        .error (.rotateFailed .uploadPanic) := by
  refine ⟨rotate_store_rejection _ _ (by decide) rfl rfl, ?_⟩
  exact writeLine_of_rotate_error rfl
    (rotate_store_rejection envStoreReject
      { mgrFresh with current_size := 150 } (by decide) rfl rfl)

/-- Introduction rule for `rotateOk`, keeping concrete rotations opaque. -/
theorem rotateOk_intro {env : UploadEnv} {m : fileManager} {P : fileManager → Prop}
    {m2 : fileManager} (h : rotate env m = .ok m2) (hP : P m2) : rotateOk env m P := by
  unfold rotateOk
  rw [h]
  exact hP

/-- C4 (amended): when some slot `n` with `n + 1 < KeepFiles` has an occupied
successor (both files exist), a sequential `rotate` does not fail with the
conflict error at all: the descending shift renames slot `n + 1` away before
it processes slot `n`, so `rotate` succeeds and the file formerly at slot `n`
ends up at slot `n + 1` — slot `n` is not left untouched either. -/
theorem rotate_occupied_successor_shifts (env : UploadEnv) (m : fileManager)
    (n : Nat) (hk2 : m.KeepFiles < managerMaxFiles)
    (hup : env.sessionOk = true → env.storeOk = true)
    (hn : n + 1 < m.KeepFiles)
    (hocc : (m.disk (filePath m n)).isSome)
    (hsucc : (m.disk (filePath m (n + 1))).isSome) :
    rotateOk env m (fun m2 => m2.disk (filePath m (n + 1)) = m.disk (filePath m n)) := by
  unfold rotateOk
  cases hres : rotate env m with
  | error e =>
    obtain ⟨m2, hrot, -⟩ := rotate_char env m (by omega) hk2 hup
    rw [hres] at hrot
    exact absurd hrot (by simp)
  | ok m2x =>
    obtain ⟨m2, hrot, hrest⟩ := rotate_char env m (by omega) hk2 hup
    rw [hres] at hrot
    injection hrot with h2
    subst h2
    have hshift := hrest.2.2.2.2.2.2.2.2.2.2.1
    have h1 := hshift (n + 1) (by omega) hn
    show m2x.disk (filePath m (n + 1)) = m.disk (filePath m n)
    simpa using h1

/-- C4 (counterexample to the claim as stated): with files at slots 0 and 1
and `KeepFiles = 3` — so slot 0 has an occupied successor and 0 is below
`KeepFiles - 1` — `rotate` does not fail with a conflict error: it succeeds,
the old slot-0 file (size 7) is renamed to slot 1, the old slot-1 file
(size 8) to slot 2, and slot 0 is re-created empty. -/
theorem rotate_occupied_successor_no_error :
    rotateOk envAllOk mgrSlots01 (fun m2 =>
      m2.disk (filePath mgrSlots01 1) = some 7 ∧
      m2.disk (filePath mgrSlots01 2) = some 8 ∧
      m2.disk (filePath mgrSlots01 0) = some 0) := by
  obtain ⟨m2, hrot, hrest⟩ :=
    rotate_char envAllOk mgrSlots01 (by decide) (by decide) (fun _ => rfl)
  refine rotateOk_intro hrot ⟨?_, ?_, hrest.2.2.2.2.2.2.2.2.2.1⟩
  · have h1 := hrest.2.2.2.2.2.2.2.2.2.2.1 1 (by omega) (by decide)
    rw [h1]
    rfl
  · have h1 := hrest.2.2.2.2.2.2.2.2.2.2.1 2 (by omega) (by decide)
    rw [h1]
    rfl

/-- C4 witness: the amended theorem at the concrete state with slots 0 and 1
occupied, `n = 0`. -/
theorem rotate_occupied_successor_shifts_witness :
    mgrSlots01.KeepFiles < managerMaxFiles ∧
      0 + 1 < mgrSlots01.KeepFiles ∧
      (mgrSlots01.disk (filePath mgrSlots01 0)).isSome ∧
      (mgrSlots01.disk (filePath mgrSlots01 1)).isSome ∧
      rotateOk envAllOk mgrSlots01 (fun m2 =>
        m2.disk (filePath mgrSlots01 (0 + 1)) = mgrSlots01.disk (filePath mgrSlots01 0)) :=
  ⟨by decide, by decide, rfl, rfl,
    rotate_occupied_successor_shifts envAllOk mgrSlots01 0 (by decide)
      (fun _ => rfl) (by decide) rfl rfl⟩

/-- C1 (amended): with `KeepFiles = 3` and generation files at exactly slots
0..4, `rotate` deletes slots 3 and 4 in the prune phase, shifts 2→3, 1→2,
0→1 and creates a fresh empty slot 0 — but then its best-effort cleanup
(file_manager.go:296-298) deletes the slot-3 file again, the very file the
shift had just moved there from slot 2.  The resulting disk state therefore
has generation files at exactly slots 0, 1 and 2: slot 1 holds the old
slot-0 file, slot 2 the old slot-1 file, and the old slot-2, slot-3 and
slot-4 files are gone. -/
theorem rotate_retention3_final_ring (env : UploadEnv) (m : fileManager)
    (cs : Nat → Nat) (hk : m.KeepFiles = 3)
    (hup : env.sessionOk = true → env.storeOk = true)
    (hocc : ∀ n, n ≤ 4 → m.disk (filePath m n) = some (cs n))
    (hrest : ∀ p, (∀ n, n ≤ 4 → p ≠ filePath m n) → m.disk p = none) :
    rotateOk env m (fun m2 =>
      m2.disk (filePath m 0) = some 0 ∧
      m2.disk (filePath m 1) = some (cs 0) ∧
      m2.disk (filePath m 2) = some (cs 1) ∧
      (∀ n, 3 ≤ n → m2.disk (filePath m n) = none) ∧
      (∀ p, (∀ n, p ≠ filePath m n) → m2.disk p = none)) := by
  obtain ⟨m2, hrot, hr⟩ := rotate_char env m (by omega) (by rw [hk]; decide) hup
  have hd0 := hr.2.2.2.2.2.2.2.2.2.1
  have hshift := hr.2.2.2.2.2.2.2.2.2.2.1
  have hhigh := hr.2.2.2.2.2.2.2.2.2.2.2.1
  have hother := hr.2.2.2.2.2.2.2.2.2.2.2.2
  refine rotateOk_intro hrot ⟨hd0, ?_, ?_, ?_, ?_⟩
  · have h1 := hshift 1 (by omega) (by omega)
    rw [h1]
    show m.disk (filePath m 0) = some (cs 0)
    exact hocc 0 (by omega)
  · have h1 := hshift 2 (by omega) (by omega)
    rw [h1]
    show m.disk (filePath m 1) = some (cs 1)
    exact hocc 1 (by omega)
  · intro n h3
    by_cases hlt : n < managerMaxFiles
    · exact hhigh n (by omega) hlt
    · rw [hother (filePath m n) (fun k hk2 heq => by have := filePath_inj heq; omega)]
      exact hrest _ (fun j hj heq => by
        have := filePath_inj heq
        have hmax : managerMaxFiles = 1024 := rfl
        omega)
  · intro p hp
    rw [hother p (fun k hk2 => hp k)]
    exact hrest p (fun j hj => hp j)

/-- C1 (counterexample to the claim as stated): rotating `mgrSlots04`
(`KeepFiles = 3`, files at slots 0..4) leaves no file at slot 3 — the
best-effort cleanup at the end of `rotate` deletes the file the shift had
just placed there — so the final disk state is {0,1,2}, not {0,1,2,3}. -/
theorem rotate_retention3_slot3_empty :
    rotateOk envAllOk mgrSlots04 (fun m2 =>
      m2.disk (filePath mgrSlots04 3) = none ∧
      m2.disk (filePath mgrSlots04 2) = some 12 ∧
      m2.disk (filePath mgrSlots04 1) = some 11 ∧
      m2.disk (filePath mgrSlots04 0) = some 0) := by
  obtain ⟨m2, hrot, hrest⟩ :=
    rotate_char envAllOk mgrSlots04 (by decide) (by decide) (fun _ => rfl)
  have hd0 := hrest.2.2.2.2.2.2.2.2.2.1
  have hshift := hrest.2.2.2.2.2.2.2.2.2.2.1
  have hhigh := hrest.2.2.2.2.2.2.2.2.2.2.2.1
  refine rotateOk_intro hrot ⟨hhigh 3 (by decide) (by decide), ?_, ?_, hd0⟩
  · have h1 := hshift 2 (by omega) (by decide)
    rw [h1]
    rfl
  · have h1 := hshift 1 (by omega) (by decide)
    rw [h1]
    rfl

/-- C1 witness: the amended theorem at the concrete manager `mgrSlots04`,
whose slot `n` holds a file of size `11 + n`. -/
theorem rotate_retention3_final_ring_witness :
    mgrSlots04.KeepFiles = 3 ∧
      (∀ n, n ≤ 4 → mgrSlots04.disk (filePath mgrSlots04 n) = some (11 + n)) ∧
      rotateOk envAllOk mgrSlots04 (fun m2 =>
        m2.disk (filePath mgrSlots04 0) = some 0 ∧
        m2.disk (filePath mgrSlots04 1) = some (11 + 0) ∧
        m2.disk (filePath mgrSlots04 2) = some (11 + 1) ∧
        (∀ n, 3 ≤ n → m2.disk (filePath mgrSlots04 n) = none) ∧
        (∀ p, (∀ n, p ≠ filePath mgrSlots04 n) → m2.disk p = none)) :=
  ⟨rfl, by decide,
    rotate_retention3_final_ring envAllOk mgrSlots04 (fun n => 11 + n) rfl
      (fun _ => rfl) (by decide)
      (fun p hp => by
        show diskSlots04 p = none
        unfold diskSlots04
        rw [if_neg (show ¬p = slotPath 0 from hp 0 (by omega)),
          if_neg (show ¬p = slotPath 1 from hp 1 (by omega)),
          if_neg (show ¬p = slotPath 2 from hp 2 (by omega)),
          if_neg (show ¬p = slotPath 3 from hp 3 (by omega)),
          if_neg (show ¬p = slotPath 4 from hp 4 (by omega))])⟩

/-- One successful `writeLine` preserves the live-file accounting invariant:
the tracked byte counter equals the size of the file at slot 0 (the bytes
written to it since it was created empty by the last rotation). -/
theorem writeLine_preserves_inv {tenv : TimeEnv} {env : UploadEnv}
    {m m1 : fileManager} {len : Nat} {b : Bool}
    (hk1 : 1 ≤ m.KeepFiles)
    (hinv : m.disk (filePath m 0) = some m.current_size)
    (h : writeLine tenv env m len = .ok (m1, b)) :
    m1.disk (filePath m1 0) = some m1.current_size ∧ m1.KeepFiles = m.KeepFiles := by
  simp only [writeLine] at h
  split at h
  · exact absurd h (by simp)
  · split at h
    · exact absurd h (by simp)
    · rename_i x1 b2 hsr x2 mr hro
      injection h with h2
      obtain ⟨hm1, hb⟩ := Prod.mk.injEq _ _ _ _ |>.mp h2
      subst hm1
      have hmr : mr.disk (filePath mr 0) = some mr.current_size ∧
          mr.KeepFiles = m.KeepFiles ∧ mr.Path = m.Path ∧ mr.Name = m.Name := by
        cases b2 with
        | false =>
          rw [if_neg (by simp)] at hro
          injection hro with hro2
          subst hro2
          exact ⟨hinv, rfl, rfl, rfl⟩
        | true =>
          rw [if_pos rfl] at hro
          obtain ⟨-, hsz, -, -, hP, hN, hK, -, -, d2, hdisk⟩ := rotate_ok_shape hro
          refine ⟨?_, hK, hP, hN⟩
          rw [hsz, hdisk, filePath_congr hP hN 0]
          rw [diskSet_other _ _ (fun heq => by have := filePath_inj heq; omega),
            diskSet_same]
      obtain ⟨hmrinv, hmrK, hmrP, hmrN⟩ := hmr
      constructor
      · show diskSet mr.disk (filePath mr 0)
          ((mr.disk (filePath mr 0)).map (fun s => s + (len + 1)))
          (filePath mr 0) = some (mr.current_size + (len + 1))
        rw [diskSet_same, hmrinv]
        rfl
      · exact hmrK

/-- C6: for every sequence of successful appends, the manager's tracked
byte counter `current_size` equals the byte count of the live slot-0 file —
the total number of bytes actually written to it since its creation at the
most recent rotation (rotation creates it empty and resets the counter;
every append adds the written line length plus newline to both). -/
theorem current_size_tracks_live_bytes (tenv : TimeEnv) (env : UploadEnv) :
    ∀ (lens : List Nat) (m : fileManager), 1 ≤ m.KeepFiles →
      m.disk (filePath m 0) = some m.current_size →
      onRunOk tenv env m lens
        (fun m2 _ => m2.disk (filePath m2 0) = some m2.current_size) := by
  intro lens
  induction lens with
  | nil =>
    intro m hk hinv
    simpa [onRunOk, runWrites] using hinv
  | cons len rest ih =>
    intro m hk hinv
    unfold onRunOk
    cases hw : writeLine tenv env m len with
    | error e =>
      simp [runWrites, hw]
    | ok p =>
      obtain ⟨m1, b⟩ := p
      obtain ⟨hinv1, hK1⟩ := writeLine_preserves_inv hk hinv hw
      have ih1 := ih m1 (by omega) hinv1
      simp only [onRunOk] at ih1
      cases hrw : runWrites tenv env m1 rest with
      | error e =>
        simp [runWrites, hw, hrw]
      | ok q =>
        obtain ⟨m2, bs⟩ := q
        rw [hrw] at ih1
        simp only [runWrites, hw, hrw]
        exact ih1

/-- C6 witness: the invariant holds concretely across two appends to the
fresh manager. -/
theorem current_size_tracks_live_bytes_witness :
    1 ≤ mgrFresh.KeepFiles ∧
      mgrFresh.disk (filePath mgrFresh 0) = some mgrFresh.current_size ∧
      onRunOk tenvZero envAllOk mgrFresh [3, 4]
        (fun m2 _ => m2.disk (filePath m2 0) = some m2.current_size) :=
  ⟨by decide, rfl,
    current_size_tracks_live_bytes tenvZero envAllOk [3, 4] mgrFresh (by decide) rfl⟩

theorem sumZ_nil : sumZ [] = 0 := rfl

theorem sumZ_cons (a : Nat) (l : List Nat) : sumZ (a :: l) = (a + 1) + sumZ l := by
  simp [sumZ]

theorem sumZ_append (l1 l2 : List Nat) : sumZ (l1 ++ l2) = sumZ l1 + sumZ l2 := by
  simp [sumZ]

theorem sumZ_take_le (l : List Nat) (j : Nat) : sumZ (l.take j) ≤ sumZ l := by
  conv_rhs => rw [← List.take_append_drop j l]
  rw [sumZ_append]
  omega

/-- A non-rotating `writeLine`: live file open, size strictly below the
threshold, time-based rotation disabled. -/
theorem writeLine_no_rotation {tenv : TimeEnv} {env : UploadEnv}
    {m : fileManager} {len : Nat}
    (hcur : m.current = some ()) (hsec : m.UploadEverySeconds ≤ 0)
    (hsz : m.current_size < m.UploadEveryBytes) :
    writeLine tenv env m len = .ok (postWrite m len, false) := by
  have hsr : shouldRotate tenv m = .ok false := by
    unfold shouldRotate
    rw [hcur]
    rw [if_neg (by simp), if_neg (by omega), if_neg (by omega)]
  simp [writeLine, hsr]

/-- A run of writes that never reaches the size threshold performs no
rotation: all flags are false and the counter accumulates the written
bytes. -/
theorem runWrites_no_rotation (tenv : TimeEnv) (env : UploadEnv) :
    ∀ (lens : List Nat) (m : fileManager),
      m.current = some () → m.UploadEverySeconds ≤ 0 →
      (∀ j, j < lens.length → m.current_size + sumZ (lens.take j) < m.UploadEveryBytes) →
      ∃ m2, runWrites tenv env m lens = .ok (m2, List.replicate lens.length false) ∧
        m2.current = some () ∧ m2.UploadEverySeconds = m.UploadEverySeconds ∧
        m2.UploadEveryBytes = m.UploadEveryBytes ∧ m2.KeepFiles = m.KeepFiles ∧
        m2.current_size = m.current_size + sumZ lens := by
  intro lens
  induction lens with
  | nil =>
    intro m h1 h2 h3
    exact ⟨m, rfl, h1, rfl, rfl, rfl, by rw [sumZ_nil]; omega⟩
  | cons len rest ih =>
    intro m h1 h2 h3
    have hsz : m.current_size < m.UploadEveryBytes := by
      have h0 := h3 0 (by simp)
      rw [List.take_zero, sumZ_nil] at h0
      omega
    have hw := @writeLine_no_rotation tenv env m len h1 h2 hsz
    have hcond : ∀ j, j < rest.length →
        (postWrite m len).current_size + sumZ (rest.take j) <
          (postWrite m len).UploadEveryBytes := by
      intro j hj
      have hj1 := h3 (j + 1) (by simpa using Nat.succ_lt_succ hj)
      rw [List.take_succ_cons, sumZ_cons] at hj1
      show m.current_size + (len + 1) + sumZ (rest.take j) < m.UploadEveryBytes
      omega
    obtain ⟨m2, hrun, hc, hs, hbb, hkk, hcs⟩ := ih (postWrite m len) h1 h2 hcond
    refine ⟨m2, ?_, hc, hs, hbb, hkk, ?_⟩
    · simp only [runWrites, hw, hrun, List.length_cons, List.replicate_succ]
    · rw [hcs, sumZ_cons]
      show m.current_size + (len + 1) + sumZ rest = m.current_size + ((len + 1) + sumZ rest)
      omega

/-- A `writeLine` whose pre-write counter has reached the threshold rotates
first (flag true) and then writes into the fresh live file. -/
theorem writeLine_rotates {tenv : TimeEnv} {env : UploadEnv}
    {m : fileManager} {len : Nat}
    (hcur : m.current = some ()) (hsz : m.UploadEveryBytes ≤ m.current_size)
    (hk1 : 1 ≤ m.KeepFiles) (hk2 : m.KeepFiles < managerMaxFiles)
    (hup : env.sessionOk = true → env.storeOk = true) :
    ∃ m1, writeLine tenv env m len = .ok (m1, true) ∧
      m1.current = some () ∧ m1.current_size = len + 1 ∧
      m1.UploadEverySeconds = m.UploadEverySeconds ∧
      m1.UploadEveryBytes = m.UploadEveryBytes ∧ m1.KeepFiles = m.KeepFiles := by
  have hsr : shouldRotate tenv m = .ok true := by
    unfold shouldRotate
    rw [hcur]
    rw [if_neg (by simp), if_pos hsz]
  obtain ⟨mr, hrot, hr⟩ := rotate_char env m hk1 hk2 hup
  refine ⟨postWrite mr len, ?_, hr.1, ?_, ?_, ?_, ?_⟩
  · simp [writeLine, hsr, hrot]
  · show mr.current_size + (len + 1) = len + 1
    rw [hr.2.1]
    omega
  · exact hr.2.2.2.2.2.2.2.1
  · exact hr.2.2.2.2.2.2.1
  · exact hr.2.2.2.2.2.2.2.2.1

/-- `runWrites` splits over list concatenation. -/
theorem runWrites_append (tenv : TimeEnv) (env : UploadEnv) :
    ∀ (l1 l2 : List Nat) (m : fileManager),
      runWrites tenv env m (l1 ++ l2) =
        (match runWrites tenv env m l1 with
        | .error e => .error e
        | .ok (m1, bs1) =>
          match runWrites tenv env m1 l2 with
          | .error e => .error e
          | .ok (m2, bs2) => .ok (m2, bs1 ++ bs2)) := by
  intro l1
  induction l1 with
  | nil =>
    intro l2 m
    simp only [List.nil_append, runWrites]
    cases h2 : runWrites tenv env m l2 with
    | error e => simp only [h2]
    | ok q =>
      obtain ⟨m2, bs⟩ := q
      simp only [h2, List.nil_append]
  | cons len l1 ih =>
    intro l2 m
    cases hw : writeLine tenv env m len with
    | error e => simp only [List.cons_append, runWrites, hw]
    | ok p =>
      obtain ⟨m1, b⟩ := p
      simp only [List.cons_append, runWrites, hw]
      rw [show l1.append l2 = l1 ++ l2 from rfl, ih l2 m1]
      cases h1 : runWrites tenv env m1 l1 with
      | error e => simp only [h1]
      | ok q =>
        obtain ⟨m2, bs1⟩ := q
        simp only [h1]
        cases h2 : runWrites tenv env m2 l2 with
        | error e => simp only [h2]
        | ok r =>
          obtain ⟨m3, bs2⟩ := r
          simp only [h2, List.cons_append]

/-- C5 (amended): with a 100-byte size threshold, time-based rotation
disabled and an open, empty live file, no rotation occurs at any write up to
and including the crossing write `c` (the first write that brings the
cumulative written size to 100 or more), because `shouldRotate` compares the
counter before the write; the single rotation fires at write `c + 1`, the
write after the crossing, provided it exists — and no further rotation when
the writes after the crossing total under 100. -/
theorem writes_rotation_after_crossing (tenv : TimeEnv) (env : UploadEnv)
    (m : fileManager) (lens : List Nat) (c : Nat)
    (hB : m.UploadEveryBytes = 100)
    (hsec : m.UploadEverySeconds ≤ 0)
    (hcur : m.current = some ()) (hcs : m.current_size = 0)
    (hk1 : 1 ≤ m.KeepFiles) (hk2 : m.KeepFiles < managerMaxFiles)
    (hup : env.sessionOk = true → env.storeOk = true)
    (hclen : c + 1 < lens.length)
    (hlow : sumZ (lens.take c) < 100)
    (hcross : 100 ≤ sumZ (lens.take (c + 1)))
    (htail : sumZ (lens.drop (c + 1)) < 100) :
    runFlags tenv env m lens =
      some (List.replicate (c + 1) false ++
        true :: List.replicate (lens.length - (c + 2)) false) := by
  have hcond1 : ∀ j, j < (lens.take (c + 1)).length →
      m.current_size + sumZ ((lens.take (c + 1)).take j) < m.UploadEveryBytes := by
    intro j hj
    rw [List.length_take] at hj
    rw [List.take_take, show min j (c + 1) = j from by omega, hcs, hB]
    have hjj : lens.take j = (lens.take c).take j := by
      rw [List.take_take]
      congr 1
      omega
    have hle : sumZ (lens.take j) ≤ sumZ (lens.take c) := by
      rw [hjj]
      exact sumZ_take_le _ j
    omega
  obtain ⟨m2, hrun1, h2cur, h2sec, h2B, h2K, h2cs⟩ :=
    runWrites_no_rotation tenv env (lens.take (c + 1)) m hcur hsec hcond1
  have h2szge : m2.UploadEveryBytes ≤ m2.current_size := by
    rw [h2B, hB, h2cs, hcs]
    simpa using hcross
  obtain ⟨m3, hw3, h3cur, h3cs, h3sec, h3B, h3K⟩ :=
    @writeLine_rotates tenv env m2 (lens[c + 1]) h2cur h2szge (by omega) (by omega) hup
  have hdd : lens.drop (c + 1) = lens[c + 1] :: lens.drop (c + 2) :=
    List.drop_eq_getElem_cons hclen
  have hcond3 : ∀ j, j < (lens.drop (c + 2)).length →
      m3.current_size + sumZ ((lens.drop (c + 2)).take j) < m3.UploadEveryBytes := by
    intro j hj
    rw [h3cs, h3B, h2B, hB]
    have h5 : sumZ (lens.drop (c + 1)) =
        (lens[c + 1] + 1) + sumZ (lens.drop (c + 2)) := by
      rw [hdd, sumZ_cons]
    have h6 : sumZ ((lens.drop (c + 2)).take j) ≤ sumZ (lens.drop (c + 2)) :=
      sumZ_take_le _ _
    omega
  obtain ⟨m4, hrun4, -, -, -, -, -⟩ :=
    runWrites_no_rotation tenv env (lens.drop (c + 2)) m3 h3cur (by omega) hcond3
  have hdecomp : lens = lens.take (c + 1) ++ (lens[c + 1] :: lens.drop (c + 2)) := by
    conv_lhs => rw [← List.take_append_drop (c + 1) lens]
    rw [hdd]
  have hsplit : runWrites tenv env m lens =
      runWrites tenv env m (lens.take (c + 1) ++ (lens[c + 1] :: lens.drop (c + 2))) := by
    rw [← hdecomp]
  unfold runFlags
  rw [hsplit, runWrites_append tenv env]
  simp only [hrun1, runWrites, hw3, hrun4]
  rw [List.length_take, List.length_drop, min_eq_left (by omega : c + 1 ≤ lens.length)]

/-- C5 (counterexample to the claim as stated): with threshold 100 and two
appended lines of written size 60 each, the cumulative written size crosses
100 during the second write, yet no rotation occurs at any write — in
particular not at the crossing write — because the policy checks the counter
before each write.  The rotation would come only with a third write. -/
theorem writes_crossing_no_rotation_at_cross :
    runFlags tenvZero envAllOk mgrFresh [59, 59] = some [false, false] := by decide

/-- C5 witness: the amended theorem on the sequence [59, 59, 5] with
crossing write index 1: flags are false, false, true. -/
theorem writes_rotation_after_crossing_witness :
    mgrFresh.UploadEveryBytes = 100 ∧ sumZ ([59, 59, 5].take 1) < 100 ∧
      100 ≤ sumZ ([59, 59, 5].take 2) ∧ sumZ ([59, 59, 5].drop 2) < 100 ∧
      runFlags tenvZero envAllOk mgrFresh [59, 59, 5] =
        some (List.replicate 2 false ++ true :: List.replicate 0 false) :=
  ⟨rfl, by decide, by decide, by decide,
    writes_rotation_after_crossing tenvZero envAllOk mgrFresh [59, 59, 5] 1 rfl
      (by decide) rfl rfl (by decide) (by decide) (fun _ => rfl) (by decide)
      (by decide) (by decide) (by decide)⟩

/-- The run of non-slash characters preceding an explicit slash is exactly the
slash-free prefix. -/
theorem takeWhile_append_slash (ys rest : List Char) (hys : ∀ c ∈ ys, c ≠ '/') :
    List.takeWhile (fun c => c != '/') (ys ++ '/' :: rest) = ys := by
  induction ys with
  | nil => simp [List.takeWhile_cons]
  | cons a ys ih =>
    have ha : (a != '/') = true := bne_iff_ne.mpr (hys a (List.mem_cons_self a ys))
    simp [List.cons_append, List.takeWhile_cons, ha,
      ih (fun c hc => hys c (List.mem_cons_of_mem a hc))]

/-- Key injectivity: two keys built from the same host and in-range timestamp
fields agree only when every timestamp component agrees. -/
theorem s3KeyName_inj {host : List Char} {t1 t2 : TimeParts}
    (h1 : t1.Valid) (h2 : t2.Valid)
    (heq : s3KeyName host t1 = s3KeyName host t2) : t1 = t2 := by
  unfold TimeParts.Valid at h1 h2
  obtain ⟨hm1a, hm1b, hd1a, hd1b, hh1, hmi1, hs1, hn1⟩ := h1
  obtain ⟨hm2a, hm2b, hd2a, hd2b, hh2, hmi2, hs2, hn2⟩ := h2
  have h100 : (10:Nat) ^ 2 = 100 := by norm_num
  have h1e9 : (10:Nat) ^ 9 = 1000000000 := by norm_num
  unfold s3KeyName timeIso8601 at heq
  simp only [List.append_assoc] at heq
  injection heq with hx heq
  have hy : decimal t1.year = decimal t2.year := by
    have h3 := congrArg (List.takeWhile (fun c => c != '/')) heq
    rwa [takeWhile_append_slash _ _ (fun c hc => decimal_mem_ne_slash hc),
      takeWhile_append_slash _ _ (fun c hc => decimal_mem_ne_slash hc)] at h3
  have hyear : t1.year = t2.year := decimal_inj hy
  obtain ⟨-, heq⟩ := List.append_inj heq (congrArg List.length hy)
  injection heq with hx heq
  obtain ⟨hmo, heq⟩ := List.append_inj heq (by rw [padNum_length, padNum_length])
  have hmonth : t1.month = t2.month := padNum_inj (by omega) (by omega) hmo
  injection heq with hx heq
  obtain ⟨hda, heq⟩ := List.append_inj heq (by rw [padNum_length, padNum_length])
  have hday : t1.day = t2.day := padNum_inj (by omega) (by omega) hda
  injection heq with hx heq
  have heq2 := List.append_cancel_left heq
  injection heq2 with hx heq2
  obtain ⟨-, heq2⟩ := List.append_inj heq2 (congrArg List.length hy)
  obtain ⟨-, heq2⟩ := List.append_inj heq2 (by rw [padNum_length, padNum_length])
  obtain ⟨-, heq2⟩ := List.append_inj heq2 (by rw [padNum_length, padNum_length])
  injection heq2 with hx heq2
  obtain ⟨hho, heq2⟩ := List.append_inj heq2 (by rw [padNum_length, padNum_length])
  have hhour : t1.hour = t2.hour := padNum_inj (by omega) (by omega) hho
  obtain ⟨hmi, heq2⟩ := List.append_inj heq2 (by rw [padNum_length, padNum_length])
  have hminute : t1.minute = t2.minute := padNum_inj (by omega) (by omega) hmi
  obtain ⟨hse, heq2⟩ := List.append_inj heq2 (by rw [padNum_length, padNum_length])
  have hsecond : t1.second = t2.second := padNum_inj (by omega) (by omega) hse
  injection heq2 with hx heq2
  obtain ⟨hns, -⟩ := List.append_inj heq2 (by rw [padNum_length, padNum_length])
  have hnano : t1.nanosecond = t2.nanosecond := padNum_inj (by omega) (by omega) hns
  cases t1
  cases t2
  simp only [TimeParts.mk.injEq]
  exact ⟨hyear, hmonth, hday, hhour, hminute, hsecond, hnano⟩

/-- Key ordering: within a fixed host and UTC day, the key of the
chronologically later instant is lexicographically greater. -/
theorem s3KeyName_lex {host : List Char} (t1 : TimeParts) {t2 : TimeParts}
    (h2 : t2.Valid) (hday : sameDay t1 t2) (hlt : timeLt t1 t2) :
    List.Lex (fun a b : Char => a < b) (s3KeyName host t1) (s3KeyName host t2) := by
  unfold TimeParts.Valid at h2
  obtain ⟨hm2a, hm2b, hd2a, hd2b, hh2, hmi2, hs2, hn2⟩ := h2
  have h100 : (10:Nat) ^ 2 = 100 := by norm_num
  have h1e9 : (10:Nat) ^ 9 = 1000000000 := by norm_num
  unfold sameDay at hday
  obtain ⟨hy, hm, hd⟩ := hday
  unfold timeLt at hlt
  unfold s3KeyName timeIso8601
  simp only [List.append_assoc]
  rw [← hy, ← hm, ← hd]
  apply List.Lex.cons
  apply lex_append_left
  apply List.Lex.cons
  apply lex_append_left
  apply List.Lex.cons
  apply lex_append_left
  apply List.Lex.cons
  apply lex_append_left
  apply List.Lex.cons
  apply lex_append_left
  apply lex_append_left
  apply lex_append_left
  apply List.Lex.cons
  rcases hlt with hh | ⟨hh, hlt⟩
  · exact lex_append_of_length_eq (by rw [padNum_length, padNum_length])
      (padNum_lex hh (by omega)) _ _
  · rw [hh]
    apply lex_append_left
    rcases hlt with hmi | ⟨hmi, hlt⟩
    · exact lex_append_of_length_eq (by rw [padNum_length, padNum_length])
        (padNum_lex hmi (by omega)) _ _
    · rw [hmi]
      apply lex_append_left
      rcases hlt with hs | ⟨hs, hn⟩
      · exact lex_append_of_length_eq (by rw [padNum_length, padNum_length])
          (padNum_lex hs (by omega)) _ _
      · rw [hs]
        apply lex_append_left
        apply List.Lex.cons
        exact lex_append_of_length_eq (by rw [padNum_length, padNum_length])
          (padNum_lex hn (by omega)) _ _

/-- C7: for any fixed resolved host and timestamp fields in the ranges Go's
time package produces, two key-namer invocations at distinct instants produce
distinct keys, and when both instants fall within the same UTC day the key of
the later instant sorts strictly after the earlier one under plain
character-wise string comparison. -/
theorem s3KeyName_distinct_and_sorted (host : List Char) (t1 t2 : TimeParts)
    (h1 : t1.Valid) (h2 : t2.Valid) :
    (t1 ≠ t2 → s3KeyName host t1 ≠ s3KeyName host t2) ∧
      (sameDay t1 t2 → timeLt t1 t2 →
        List.Lex (fun a b : Char => a < b) (s3KeyName host t1) (s3KeyName host t2)) :=
  ⟨fun hne hkey => hne (s3KeyName_inj h1 h2 hkey),
    fun hday hlt => s3KeyName_lex t1 h2 hday hlt⟩

/-- C7 witness: host "h", two valid instants one nanosecond apart on the same
UTC day give distinct, lexicographically ordered keys. -/
theorem s3KeyName_distinct_and_sorted_witness :
    s3KeyName ['h'] tpEarly ≠ s3KeyName ['h'] tpLate ∧
      List.Lex (fun a b : Char => a < b) (s3KeyName ['h'] tpEarly)
        (s3KeyName ['h'] tpLate) :=
  ⟨(s3KeyName_distinct_and_sorted ['h'] tpEarly tpLate (by decide) (by decide)).1
      (by decide),
    (s3KeyName_distinct_and_sorted ['h'] tpEarly tpLate (by decide) (by decide)).2
      (by decide) (by decide)⟩
